import Mathlib

/-!
Verification development for the Vienna Game Job System (VGJS).

Shallow embedding of the scheduling and completion core of the job system:
the Job record and its completion protocol (`on_finished`, `child_finished`,
file VEGameJobSystem2.h), the lock-free job queue in its FIFO variant,
`JobSystem::schedule`, and the coroutine promise machinery (`Coro_promise`,
the final awaiter, the thread-hop awaiter, and the coroutine scheduling
wrapper `vgjs::schedule`, file VECoro.h).

Jobs are identified by natural-number ids; pointer fields become `Option`
over ids; the intrusive linked list of a queue becomes the Lean list of the
jobs reachable from its head; the thread-local current job becomes an
explicit `Option JobId` argument.
-/

namespace VGJS

/-- Identifier standing for the address of a Job object. -/
abbrev JobId := Nat

/-- Fields of class Job relevant to the completion protocol
(VEGameJobSystem2.h lines 41-67): m_children, m_parent, m_continuation.
The intrusive m_next link is represented by queue lists instead. -/
structure Job where
  children : Int
  parent : Option JobId
  continuation : Option JobId
deriving Repr, DecidableEq

/-- JobQueue::push (VEGameJobSystem2.h lines 89-92): the job is prepended at
the head of the intrusive list. -/
def push (j : α) (q : List α) : List α := j :: q

/-- JobQueue pop in the LIFO variant (VEGameJobSystem2.h line 115): the head
is removed by a CAS and returned. -/
def popLIFO : List α → Option α × List α
  | [] => (none, [])
  | a :: r => (some a, r)

/-- JobQueue pop in the FIFO variant (VEGameJobSystem2.h lines 98-117): walk
from the head to the last node, detach that node by nulling its
predecessor's next link and return it; when a single node remains, fall
through to the head CAS, leaving the queue empty. -/
def popFIFO : List α → Option α × List α
  | [] => (none, [])
  | [a] => (some a, [])
  | a :: b :: r =>
      let s := popFIFO (b :: r)
      (s.1, a :: s.2)

/-- Pushing a list of jobs one by one, in list order, onto a queue. -/
def pushAll (js : List α) (q : List α) : List α :=
  js.foldl (fun acc j => push j acc) q

/-- Popping n times from a FIFO queue, collecting the returned jobs in
order; stops early if the queue runs empty. -/
def pops : Nat → List α → List α
  | 0, _ => []
  | n + 1, q =>
      match popFIFO q with
      | (none, _) => []
      | (some a, r) => a :: pops n r

/-- Queue state of a JobSystem with n worker threads
(VEGameJobSystem2.h lines 137-138): one local queue per worker and one
central queue. -/
structure SysState (n : Nat) where
  localQueues : Fin n → List JobId
  centralQueue : List JobId

/-- JobSystem::schedule (VEGameJobSystem2.h lines 256-262), called on the
thread with index threadIndex. If thd is in range the source executes
m_local_queues[m_thread_index]->push(job) — the index used is the CALLING
thread's own index, not thd — otherwise the job goes to the central queue. -/
def JobSystem.schedule (n : Nat) (threadIndex : Fin n) (s : SysState n)
    (job : JobId) (thd : Int) : SysState n :=
  if 0 ≤ thd ∧ thd < (n : Int) then
    ⟨fun i => if i = threadIndex then push job (s.localQueues i) else s.localQueues i,
      s.centralQueue⟩
  else
    ⟨s.localQueues, push job s.centralQueue⟩

/-- Protocol actions performed by Job::on_finished, in program order. `incChildren p`
stands for m_parent->m_children++ with m_parent = p, `setParent c p` for
m_continuation->m_parent = m_parent, `schedule j` for
JobSystem::instance()->schedule(m_continuation), and `childFinished p` for
m_parent->child_finished(). -/
inductive Event where
  | incChildren (p : JobId)
  | setParent (c p : JobId)
  | schedule (j : JobId)
  | childFinished (p : JobId)
deriving Repr, DecidableEq

/-- Job::on_finished (VEGameJobSystem2.h lines 273-286) rendered as the
sequence of protocol actions it performs, in program order: if there is a
continuation, first notify the parent (increment its child count and hand
the parent down to the continuation) and then schedule the continuation;
afterwards, if there is a parent, call child_finished on it. -/
def onFinished (j : Job) : List Event :=
  (match j.continuation with
   | some c =>
       (match j.parent with
        | some p => [Event.incChildren p, Event.setParent c p]
        | none => []) ++ [Event.schedule c]
   | none => []) ++
  (match j.parent with
   | some p => [Event.childFinished p]
   | none => [])

/-- Job::child_finished (VEGameJobSystem2.h lines 297-301):
m_children.fetch_sub(1) returns the value before the decrement; on_finished
is invoked when that value was 1. The result is the new counter value and
whether on_finished was invoked. -/
def child_finished (children : Int) : Int × Bool :=
  (children - 1, children == 1)

/-- Abstract protocol state of one job's m_children counter: the counter
value together with the number of outstanding decrement obligations — the
registered children that have not yet called child_finished, plus the
job's own self count taken in Job::operator() (VEGameJobSystem2.h lines
57-63) until its own fetch_sub. -/
structure CounterState where
  children : Int
  pending : Nat
deriving Repr, DecidableEq

/-- Steps of the completion protocol acting on one job's counter.
register models a m_children++ performed on behalf of a new child
(vgjs::schedule in VECoro.h, or Job::on_finished handing a continuation to
the parent); it can only be performed while the job still has an
outstanding obligation (its own body or a yet-unfinished child) — this is
the usage discipline of the protocol. finish models one obligation holder
performing the fetch_sub of Job::child_finished / Job::operator(). -/
inductive CounterStep : CounterState → CounterState → Prop
  | register (c : Int) (p : Nat) (hp : 0 < p) :
      CounterStep ⟨c, p⟩ ⟨c + 1, p + 1⟩
  | finish (c : Int) (p : Nat) (hp : 0 < p) :
      CounterStep ⟨c, p⟩ ⟨(child_finished c).1, p - 1⟩

/-- Counter states reachable from the initial state of a job: m_children = 1
(the job is its own child) with the single self obligation outstanding. -/
def CounterReachable (s : CounterState) : Prop :=
  Relation.ReflTransGen CounterStep ⟨1, 1⟩ s

/-- vgjs::schedule for coroutines (VECoro.h lines 44-51): read the
thread-local current job; if it is not null increment its m_children;
store it (possibly null) in the promise's m_coro_parent; then schedule the
promise. The result is the updated children map and the m_coro_parent
value given to the promise. -/
def scheduleCoro (ch : JobId → Int) (cur : Option JobId) :
    (JobId → Int) × Option JobId :=
  match cur with
  | some parent => (fun q => if q = parent then ch q + 1 else ch q, some parent)
  | none => (ch, none)

/-- Coro_promise<T> (VECoro.h): the Job fields inherited through
Coro_promise_base and Job_base, the m_coro_parent back reference, the
m_thread_index affinity field, and the stored return value m_value. -/
structure Coro_promise (T : Type) where
  children : Int
  parent : Option JobId
  continuation : Option JobId
  coroParent : Option JobId
  threadIndex : Int
  m_value : T
deriving Repr, DecidableEq

/-- Freshly constructed Coro_promise with id selfId: Coro_promise_base's
constructor (VECoro.h line 82) sets m_continuation = this; m_children
starts at 1, the pointer fields at null, m_thread_index at -1, and m_value
is value-initialized (m_value{}). -/
def Coro_promise.mk0 (T : Type) [Inhabited T] (selfId : JobId) : Coro_promise T :=
  ⟨1, none, some selfId, none, -1, default⟩

/-- View of a promise as the Job record the scheduler and the completion
protocol operate on. -/
def Coro_promise.toJob (p : Coro_promise T) : Job :=
  ⟨p.children, p.parent, p.continuation⟩

/-- Coro_promise::return_value (VECoro.h lines 359-361): co_return v stores
v in m_value. -/
def Coro_promise.return_value (p : Coro_promise T) (t : T) : Coro_promise T :=
  ⟨p.children, p.parent, p.continuation, p.coroParent, p.threadIndex, t⟩

/-- Coro_promise::get (VECoro.h lines 367-369), called through Coro::get
(line 487-489): return the stored m_value unconditionally. -/
def Coro_promise.get (p : Coro_promise T) : T := p.m_value

/-- final_awaiter::await_suspend (VECoro.h lines 425-431): set m_parent
from m_coro_parent, set m_continuation to null; await_suspend returns void,
so the coroutine suspends unconditionally and the frame is not destroyed.
The Bool records that the coroutine stays suspended. -/
def final_await_suspend (p : Coro_promise T) : Coro_promise T × Bool :=
  (⟨p.children, p.coroParent, none, p.coroParent, p.threadIndex, p.m_value⟩, true)

/-- awaitable_resume_on::awaiter::await_ready (VECoro.h lines 293-295):
ready (no suspension) exactly when the requested index equals the current
worker's thread index. -/
def resume_on_await_ready (k currentIndex : Int) : Bool := k == currentIndex

/-- awaitable_resume_on::awaiter::await_suspend (VECoro.h lines 297-299):
record the requested thread index in the promise's m_thread_index. -/
def resume_on_await_suspend (k : Int) (p : Coro_promise T) : Coro_promise T :=
  ⟨p.children, p.parent, p.continuation, p.coroParent, k, p.m_value⟩

/-- Operations the source performs on a live promise before its final
suspension: Coro_promise::resume resetting m_children to 1 (VECoro.h lines
344-353), vgjs::schedule storing m_coro_parent (line 49), Coro::operator()
and the thread-hop awaiter writing m_thread_index (lines 508, 298), the
fetch_sub of child_finished on the promise-as-job, and Job::on_finished of
a finished job writing its continuation's m_parent (VEGameJobSystem2.h line
278). None of them writes m_continuation. -/
inductive PreFinalOp where
  | promiseResume
  | setCoroParent (cur : Option JobId)
  | setThreadIndex (k : Int)
  | childFinishedDec
  | setParentField (q : Option JobId)
deriving Repr, DecidableEq

/-- Effect of one pre-final-suspension operation on the promise state. -/
def applyOp (op : PreFinalOp) (p : Coro_promise T) : Coro_promise T :=
  match op with
  | PreFinalOp.promiseResume =>
      ⟨1, p.parent, p.continuation, p.coroParent, p.threadIndex, p.m_value⟩
  | PreFinalOp.setCoroParent cur =>
      ⟨p.children, p.parent, p.continuation, cur, p.threadIndex, p.m_value⟩
  | PreFinalOp.setThreadIndex k =>
      ⟨p.children, p.parent, p.continuation, p.coroParent, k, p.m_value⟩
  | PreFinalOp.childFinishedDec =>
      ⟨(child_finished p.children).1, p.parent, p.continuation, p.coroParent,
        p.threadIndex, p.m_value⟩
  | PreFinalOp.setParentField q =>
      ⟨p.children, q, p.continuation, p.coroParent, p.threadIndex, p.m_value⟩

/-- Effect of a sequence of pre-final-suspension operations, applied in
order. -/
def applyOps (ops : List PreFinalOp) (p : Coro_promise T) : Coro_promise T :=
  ops.foldl (fun acc op => applyOp op acc) p

/-- Helper: the FIFO pop returns the last element of the list (the earliest
pushed job, since push prepends) and leaves the list without its last
element. -/
theorem popFIFO_eq (l : List α) : popFIFO l = (l.getLast?, l.dropLast) := by
  induction l with
  | nil => rfl
  | cons a t ih =>
    cases t with
    | nil => rfl
    | cons b r =>
      simp only [popFIFO, ih, List.getLast?_cons_cons, List.dropLast]

/-- Helper: pushing the jobs of a list in order prepends them one by one,
so the queue list is the reverse of the pushed list, in front of the old
queue content. -/
theorem pushAll_eq (js : List α) (q : List α) : pushAll js q = js.reverse ++ q := by
  induction js generalizing q with
  | nil => simp [pushAll]
  | cons j t ih =>
    show pushAll t (push j q) = (j :: t).reverse ++ q
    rw [ih]
    simp [push]

/-- C7: for the FIFO queue variant with a single consumer, popping from a
queue built by pushing the jobs of js in order returns exactly js in push
(FIFO) order: each pop detaches and returns the tail of the intrusive list,
which is the earliest-pushed job; and when exactly one job is present, pop
removes it from the head via CAS, leaving the queue empty. -/
theorem popFIFO_fifo_order (js : List JobId) (j : JobId) :
    pops js.length (pushAll js []) = js ∧ popFIFO [j] = (some j, []) := by
  refine ⟨?_, rfl⟩
  induction js with
  | nil => rfl
  | cons a t ih =>
    have h1 : pushAll (a :: t) ([] : List JobId) = t.reverse ++ [a] := by
      rw [pushAll_eq]; simp
    have h2 : popFIFO (t.reverse ++ [a]) = (some a, t.reverse) := by
      rw [popFIFO_eq, List.getLast?_concat, List.dropLast_concat]
    have h3 : pushAll t ([] : List JobId) = t.reverse := by
      rw [pushAll_eq]; simp
    show pops (t.length + 1) (pushAll (a :: t) []) = a :: t
    rw [h1, pops, h2]
    show a :: pops t.length t.reverse = a :: t
    rw [h3] at ih
    rw [ih]

/-- C1: evaluation of JobSystem::schedule at the failing input. In a system
with 2 workers, schedule(job = 7, thd = 0) invoked on the worker with
thread index 1 pushes the job onto local queue 1 (the calling thread's
queue) and leaves worker 0's local queue empty, contradicting the claim
that the job is pushed onto worker thd's local queue. The out-of-range
branch behaves as claimed: thd = -1 and thd = 5 both push onto the central
queue. -/
theorem schedule_pushes_to_calling_thread :
    (JobSystem.schedule 2 1 ⟨fun _ => [], []⟩ 7 0).localQueues 0 = [] ∧
    (JobSystem.schedule 2 1 ⟨fun _ => [], []⟩ 7 0).localQueues 1 = [7] ∧
    (JobSystem.schedule 2 1 ⟨fun _ => [], []⟩ 7 (-1)).centralQueue = [7] ∧
    (JobSystem.schedule 2 1 ⟨fun _ => [], []⟩ 7 5).centralQueue = [7] := by
  refine ⟨?_, ?_, rfl, rfl⟩ <;> decide

/-- C2: submitting a coroutine child via vgjs::schedule increments a job's
children counter by exactly one iff that job is the submitting current job;
the promise's coro_parent is set to the current job; and when no job is
running (current_job null) the children map is unchanged, so the child is
an orphan. -/
theorem scheduleCoro_children (ch : JobId → Int) (cur : Option JobId) (j : JobId) :
    ((scheduleCoro ch cur).1 j = ch j + 1 ↔ cur = some j) ∧
    (scheduleCoro ch cur).2 = cur ∧
    (scheduleCoro ch none).1 = ch := by
  refine ⟨?_, ?_, rfl⟩
  · cases cur with
    | none =>
      simp only [scheduleCoro]
      constructor
      · intro h; omega
      · intro h; exact absurd h (by simp)
    | some p =>
      by_cases h : j = p
      · subst h
        simp [scheduleCoro]
      · simp only [scheduleCoro, if_neg h, Option.some_inj]
        constructor
        · intro hch; omega
        · intro hp; exact absurd hp.symm h
  · cases cur <;> rfl

/-- C3: Job::on_finished with continuation c and parent p performs, in this
order, the increment of the parent's children counter, the assignment of p
as the continuation's parent, the scheduling of the continuation, and only
afterwards the child_finished notification of the parent; with a parent but
no continuation it performs only the child_finished notification. -/
theorem onFinished_order (ch : Int) (c p : JobId) :
    onFinished ⟨ch, some p, some c⟩ =
      [Event.incChildren p, Event.setParent c p, Event.schedule c,
        Event.childFinished p] ∧
    onFinished ⟨ch, some p, none⟩ = [Event.childFinished p] :=
  ⟨rfl, rfl⟩

/-- C5: Job::child_finished decrements the children counter by one and
invokes on_finished exactly when the value before the decrement was 1,
i.e. when the counter hit zero. -/
theorem child_finished_decrements (c : Int) :
    (child_finished c).1 = c - 1 ∧
    ((child_finished c).2 = true ↔ c = 1) ∧
    ((child_finished c).2 = true ↔ (child_finished c).1 = 0) := by
  refine ⟨rfl, ?_, ?_⟩
  · simp [child_finished]
  · simp only [child_finished, beq_iff_eq]
    omega

/-- Helper: in every reachable counter state the counter equals the number
of outstanding decrement obligations. -/
theorem counterReachable_inv (s : CounterState) (h : CounterReachable s) :
    s.children = (s.pending : Int) := by
  induction h with
  | refl => rfl
  | tail _ step ih =>
    cases step with
    | register c p hp =>
      simp only at ih ⊢
      omega
    | finish c p hp =>
      simp only [child_finished] at ih ⊢
      omega

/-- C4: in every counter state reachable under the completion-protocol
discipline from the initial state (children = 1, the self obligation), the
children counter is nonnegative, and once the counter has reached 0 — the
point where child_finished triggers on_finished — no further protocol step,
in particular no further child_finished decrement, is possible for that
execution of the job. -/
theorem children_nonneg_no_step_after_zero (s : CounterState)
    (h : CounterReachable s) :
    0 ≤ s.children ∧ (s.children = 0 → ∀ t, ¬ CounterStep s t) := by
  have hinv := counterReachable_inv s h
  obtain ⟨c, p⟩ := s
  dsimp only at hinv
  constructor
  · dsimp only
    omega
  · intro h0 t hstep
    dsimp only at h0
    cases hstep with
    | register c p hp => omega
    | finish c p hp => omega

/-- Witness for C4 at the initial state, reachable by the empty run. -/
theorem children_nonneg_no_step_after_zero_witness :
    0 ≤ (⟨1, 1⟩ : CounterState).children ∧
      ((⟨1, 1⟩ : CounterState).children = 0 →
        ∀ t, ¬ CounterStep (⟨1, 1⟩ : CounterState) t) :=
  children_nonneg_no_step_after_zero ⟨1, 1⟩ Relation.ReflTransGen.refl

/-- C6: evaluation of Coro_promise::get at the failing input. For the
coroutine compute(0) of the mixed test (which co_returns 2 * 0), get on the
freshly constructed promise — before the coroutine body has run at all —
already returns 0, the very value that the later co_return stores: the
stored m_value is value-initialized and get returns it unconditionally, so
the result of get before co_return is a perfectly defined value and is
indistinguishable from the result of the completed computation. -/
theorem get_defined_before_co_return :
    (Coro_promise.mk0 Int 7).get = 0 ∧
    ((Coro_promise.mk0 Int 7).return_value (2 * 0)).get = (Coro_promise.mk0 Int 7).get := by
  exact ⟨rfl, rfl⟩

/-- C8: at the final suspension point the promise's parent field is set to
coro_parent, its continuation field is cleared to null, the coroutine
always suspends (await_suspend returns void) rather than destroying the
frame, and the stored result value is left untouched, so it remains
retrievable. -/
theorem final_suspend_sets_parent_clears_continuation (T : Type)
    (p : Coro_promise T) :
    (final_await_suspend p).1.parent = p.coroParent ∧
    (final_await_suspend p).1.continuation = none ∧
    (final_await_suspend p).2 = true ∧
    (final_await_suspend p).1.m_value = p.m_value :=
  ⟨rfl, rfl, rfl, rfl⟩

/-- C9: evaluation of the thread-hop at the failing input. The awaiter
behaves as claimed: awaiting thread index 1 on worker 1 is ready (no
suspension), awaiting thread index 0 on worker 1 suspends and stores 0 in
the promise's thread-index field. But the subsequent scheduling of the
promise with thd = 0 from worker 1 of a 2-worker system pushes it onto
worker 1's local queue — which only worker 1 pops — and leaves worker 0's
local queue empty, so the next scheduling does not land the promise on
worker 0. -/
theorem resume_on_does_not_land_on_target :
    resume_on_await_ready 1 1 = true ∧
    resume_on_await_ready 0 1 = false ∧
    (resume_on_await_suspend 0 (Coro_promise.mk0 Int 7)).threadIndex = 0 ∧
    (JobSystem.schedule 2 1 ⟨fun _ => [], []⟩ 7
        (resume_on_await_suspend 0 (Coro_promise.mk0 Int 7)).threadIndex).localQueues 0
      = [] ∧
    (JobSystem.schedule 2 1 ⟨fun _ => [], []⟩ 7
        (resume_on_await_suspend 0 (Coro_promise.mk0 Int 7)).threadIndex).localQueues 1
      = [7] := by
  refine ⟨rfl, rfl, rfl, ?_, ?_⟩ <;> decide

/-- Helper: no pre-final-suspension operation writes the continuation
field. -/
theorem applyOp_continuation (op : PreFinalOp) (p : Coro_promise T) :
    (applyOp op p).continuation = p.continuation := by
  cases op <;> rfl

/-- Helper: a sequence of pre-final-suspension operations leaves the
continuation field unchanged. -/
theorem applyOps_continuation (ops : List PreFinalOp) (p : Coro_promise T) :
    (applyOps ops p).continuation = p.continuation := by
  induction ops generalizing p with
  | nil => rfl
  | cons op t ih =>
    show (applyOps t (applyOp op p)).continuation = p.continuation
    rw [ih, applyOp_continuation]

/-- Helper: on_finished of a job whose continuation is c schedules c. -/
theorem onFinished_schedules_continuation (j : Job) (c : JobId)
    (h : j.continuation = some c) : Event.schedule c ∈ onFinished j := by
  unfold onFinished
  rw [h]
  cases hp : j.parent <;> simp

/-- C10: a freshly constructed promise's continuation field points to the
promise itself; it stays self-referential across every sequence of
operations the source performs on a live promise, until the final awaiter
sets it to null; and while it is self-referential, on_finished of the
promise-as-job schedules the promise itself as its own continuation, which
is how a suspended coroutine gets resumed after its children finish. -/
theorem continuation_self_until_final (selfId : JobId) (ops : List PreFinalOp) :
    (Coro_promise.mk0 Int selfId).continuation = some selfId ∧
    (applyOps ops (Coro_promise.mk0 Int selfId)).continuation = some selfId ∧
    (final_await_suspend (applyOps ops (Coro_promise.mk0 Int selfId))).1.continuation
      = none ∧
    Event.schedule selfId ∈
      onFinished (applyOps ops (Coro_promise.mk0 Int selfId)).toJob := by
  have hc : (applyOps ops (Coro_promise.mk0 Int selfId)).continuation = some selfId := by
    rw [applyOps_continuation]
    rfl
  refine ⟨rfl, hc, rfl, ?_⟩
  exact onFinished_schedules_continuation _ selfId hc

end VGJS
